import Mathlib

/-!
Verification of the file-browser core (`src/main.py`) against its
natural-language specification.

The development shallowly embeds the stateful widgets of `main.py` as pure
Lean functions over explicit inputs:

* `FileList` (main.py:469-586): directory listing state, refresh, hidden-file
  toggle.  Filesystem reads are passed in as the value `iterdir` would have
  produced (`List Entry`), or as an `Except` when the claim is about raised
  errors.
* `FuzzyFinderScreen` (main.py:295-453): recursive candidate collection and
  query ranking.  The third-party `rapidfuzz` scorer is an external
  collaborator and is abstracted as a score function parameter; its
  `process.extract` is modelled as the documented behaviour: a stable sort by
  descending score followed by a cap of 100.
* `FilePreview` (main.py:589-679): the preview pipeline, including the
  UTF-8 `errors='replace'` decode, the 1000-line cap, the 1 MB size gate and
  human-readable size formatting.

Python's `list.sort` is a stable sort by a key; a stable sort with respect to
a total preorder has a unique result, so `List.insertionSort` over the same
(total, transitive) relation is an exact model of it.
-/

namespace FileBrowser

/-- Lexicographic `≤` on character lists by code point; this is exactly
Python's `str` comparison used (through sort keys) in `main.py`. -/
def lexLeChars : List Char → List Char → Bool
  | [], _ => true
  | _ :: _, [] => false
  | c :: cs, d :: ds => if c = d then lexLeChars cs ds else decide (c < d)

/-- String `≤` as Python compares strings (by code points). -/
def strLeB (a b : String) : Bool :=
  lexLeChars a.data b.data

/-- ASCII lower-casing of a string, modelling Python's `str.lower` on the
ASCII range (the only range the spec's ordering claims depend on). -/
def lowerStr (s : String) : String :=
  String.mk (s.data.map Char.toLower)

theorem lexLeChars_total : ∀ a b, lexLeChars a b = true ∨ lexLeChars b a = true := by
  intro a
  induction a with
  | nil => intro b; left; rfl
  | cons c cs ih =>
    intro b
    cases b with
    | nil => right; rfl
    | cons d ds =>
      by_cases hcd : c = d
      · subst hcd
        simpa [lexLeChars] using ih ds
      · rcases lt_or_gt_of_ne hcd with h | h
        · left; simp [lexLeChars, hcd, h]
        · right; simp [lexLeChars, Ne.symm hcd, h]

theorem lexLeChars_trans :
    ∀ a b c, lexLeChars a b = true → lexLeChars b c = true → lexLeChars a c = true := by
  intro a
  induction a with
  | nil => intro b c _ _; rfl
  | cons x xs ih =>
    intro b c hab hbc
    cases b with
    | nil => simp [lexLeChars] at hab
    | cons y ys =>
      cases c with
      | nil => simp [lexLeChars] at hbc
      | cons z zs =>
        by_cases hxy : x = y
        · subst hxy
          by_cases hyz : x = z
          · subst hyz
            simp only [lexLeChars, if_pos rfl] at hab hbc ⊢
            exact ih ys zs hab hbc
          · simpa [lexLeChars, hyz] using hbc
        · by_cases hyz : y = z
          · subst hyz
            simpa [lexLeChars, hxy] using hab
          · simp only [lexLeChars, if_neg hxy, decide_eq_true_eq] at hab
            simp only [lexLeChars, if_neg hyz, decide_eq_true_eq] at hbc
            have hxz : x < z := lt_trans hab hbc
            simp [lexLeChars, ne_of_lt hxz, hxz]

theorem strLeB_total (a b : String) : strLeB a b = true ∨ strLeB b a = true :=
  lexLeChars_total a.data b.data

theorem strLeB_trans {a b c : String} (h₁ : strLeB a b = true) (h₂ : strLeB b c = true) :
    strLeB a c = true :=
  lexLeChars_trans a.data b.data c.data h₁ h₂

/-! ### `FileList` (main.py:469-586) -/

/-- One child returned by `current_path.iterdir()`: its final name component
and whether `is_dir()` holds for it. -/
structure Entry where
  name : String
  isDir : Bool
deriving DecidableEq

/-- `e.name.startswith('.')`, the hidden-file test of main.py:491. -/
def Entry.hidden (e : Entry) : Bool :=
  match e.name.data with
  | [] => false
  | c :: _ => c = '.'

/-- The hidden-file filter of main.py:490-491. -/
def visibleEntries (showHidden : Bool) (raw : List Entry) : List Entry :=
  if showHidden then raw else raw.filter (fun e => !e.hidden)

/-- The sort key comparison of main.py:494:
`key=lambda x: (not x.is_dir(), x.name.lower())` compared lexicographically. -/
def entryLeB (a b : Entry) : Bool :=
  if a.isDir = b.isDir then strLeB (lowerStr a.name) (lowerStr b.name) else a.isDir

/-- Propositional form of `entryLeB`, for use with `List.insertionSort`. -/
def entryLe (a b : Entry) : Prop :=
  entryLeB a b = true

instance : DecidableRel entryLe :=
  fun a b => inferInstanceAs (Decidable (entryLeB a b = true))

instance : IsTotal Entry entryLe where
  total a b := by
    unfold entryLe entryLeB
    by_cases h : a.isDir = b.isDir
    · simp only [h, if_pos rfl, if_pos h]
      exact strLeB_total (lowerStr a.name) (lowerStr b.name)
    · simp only [if_neg h, if_neg (Ne.symm h)]
      cases ha : a.isDir <;> cases hb : b.isDir <;> simp_all

instance : IsTrans Entry entryLe where
  trans a b c hab hbc := by
    unfold entryLe entryLeB at *
    by_cases hab' : a.isDir = b.isDir <;> by_cases hbc' : b.isDir = c.isDir
    · have hac : a.isDir = c.isDir := hab'.trans hbc'
      simp only [if_pos hab'] at hab
      simp only [if_pos hbc'] at hbc
      simp only [if_pos hac]
      exact strLeB_trans hab hbc
    · have hac : ¬ a.isDir = c.isDir := hab' ▸ hbc'
      simp only [if_neg hbc'] at hbc
      simp only [if_neg hac]
      exact hab' ▸ hbc
    · have hac : ¬ a.isDir = c.isDir := fun h => hab' (h.trans hbc'.symm)
      simp only [if_neg hab'] at hab
      simp only [if_neg hac]
      exact hab
    · exfalso
      simp only [if_neg hab'] at hab
      simp only [if_neg hbc'] at hbc
      cases ha : a.isDir <;> cases hb : b.isDir <;> simp_all

/-- A row of the rendered listing: the parent-directory pseudo-entry that
main.py:498 prepends, or a real child entry. -/
inductive Row
  | parent
  | child (e : Entry)
deriving DecidableEq

/-- State of the `FileList` widget that the claims talk about
(`current_path` itself is abstracted into the `hasParent`/`raw` inputs of the
operations). -/
structure ListState where
  showHidden : Bool
  entries : List Row
  selectedIndex : Nat
deriving DecidableEq

/-- The successful body of `FileList.refresh_list` (main.py:487-502):
filter hidden entries, stable-sort by `(not is_dir, name.lower())`, prepend
the parent pseudo-entry unless at a filesystem root. -/
def refreshEntries (hasParent showHidden : Bool) (raw : List Entry) : List Row :=
  (if hasParent then [Row.parent] else []) ++
    ((visibleEntries showHidden raw).insertionSort entryLe).map Row.child

/-- `FileList.refresh_list` on the success path: replaces `entries` and
resets `selected_index` to 0 (main.py:498-502). -/
def refreshList (hasParent : Bool) (raw : List Entry) (st : ListState) : ListState :=
  { st with entries := refreshEntries hasParent st.showHidden raw, selectedIndex := 0 }

/-- `FileList.toggle_hidden_files` (main.py:583-586): flip `show_hidden`,
then refresh against the (unchanged) directory contents `raw`. -/
def toggleHiddenFiles (hasParent : Bool) (raw : List Entry) (st : ListState) : ListState :=
  refreshList hasParent raw { st with showHidden := !st.showHidden }

/-- Kinds of exception a filesystem call can raise in `main.py`:
`PermissionError`, `FileNotFoundError`, or any other `OSError`. -/
inductive FsErr
  | permission
  | notFound
  | ioError
deriving DecidableEq

/-- Observable outcome of `refresh_list`: a fresh listing, or the
`"Permission denied"` error line of main.py:505. -/
inductive RefreshOut
  | listed (st : ListState)
  | permissionDenied
deriving DecidableEq

/-- `FileList.refresh_list` with its exception structure (main.py:484-505):
the `try` body consumes the result of `iterdir`; `except PermissionError`
turns into the error line; any other exception is not caught and
propagates (`Except.error`). -/
def refreshListExc (iterResult : Except FsErr (List Entry)) (hasParent : Bool)
    (st : ListState) : Except FsErr RefreshOut :=
  match iterResult with
  | .ok raw => .ok (.listed (refreshList hasParent raw st))
  | .error .permission => .ok .permissionDenied
  | .error e => .error e

/-! ### `FuzzyFinderScreen` (main.py:295-453) -/

/-- A filesystem path as its sequence of components (as `pathlib`'s
`Path.parts` exposes it). -/
def hasHiddenPart (p : List String) : Bool :=
  p.any (fun s =>
    match s.data with
    | [] => false
    | c :: _ => c = '.')

/-- The final name component of a path (`Path.name`). -/
def pathName (p : List String) : String :=
  (p.getLast?).getD ""

/-- The sort key of main.py:378: `key=lambda x: x.name.lower()`. -/
def pathLeB (a b : List String) : Bool :=
  strLeB (lowerStr (pathName a)) (lowerStr (pathName b))

/-- Propositional form of `pathLeB` for `List.insertionSort`. -/
def pathLe (a b : List String) : Prop :=
  pathLeB a b = true

instance : DecidableRel pathLe :=
  fun a b => inferInstanceAs (Decidable (pathLeB a b = true))

instance : IsTotal (List String) pathLe where
  total _ _ := strLeB_total _ _

instance : IsTrans (List String) pathLe where
  trans _ _ _ hab hbc := strLeB_trans hab hbc

/-- `FuzzyFinderScreen.collect_files` success path (main.py:368-378):
`rglob` yields each descendant as `root ++ rel`; a path is skipped when any
component of the full absolute path starts with `'.'`
(`any(part.startswith('.') for part in path.parts)`); the survivors are
stable-sorted by `name.lower()`. -/
def collectFiles (root : List String) (rels : List (List String)) : List (List String) :=
  ((rels.map (fun rel => root ++ rel)).filter (fun p => !hasHiddenPart p)).insertionSort pathLe

/-- `collect_files` with its exception structure (main.py:366-380):
`except PermissionError` degrades to an empty candidate list; any other
exception propagates. -/
def collectFilesExc (root : List String) (walk : Except FsErr (List (List String))) :
    Except FsErr (List (List String)) :=
  match walk with
  | .ok rels => .ok (collectFiles root rels)
  | .error .permission => .ok []
  | .error e => .error e

/-- The ranking order used by `process.extract(query, keys, scorer=WRatio,
limit=100)` (main.py:405-410): candidates sorted by descending score.  The
`rapidfuzz` scorer itself is an external collaborator and is a parameter. -/
def extractRel (score : String → String → Nat) (toStr : α → String) (q : String)
    (a b : α) : Prop :=
  score q (toStr b) ≤ score q (toStr a)

instance {score : String → String → Nat} {toStr : α → String} {q : String} :
    DecidableRel (extractRel score toStr q) :=
  fun _ _ => Nat.decLe _ _

/-- `FuzzyFinderScreen.update_results` (main.py:386-411): an empty query
shows the first 100 candidates in baseline order; otherwise the candidates
are ranked by `process.extract`, modelled as a stable sort by descending
score capped at 100.  `toStr` is the relative-path string a candidate is
scored by (the dict keys of main.py:396-402). -/
def updateResults (score : String → String → Nat) (toStr : α → String)
    (allFiles : List α) (q : String) : List α :=
  if q = "" then allFiles.take 100
  else (allFiles.insertionSort (extractRel score toStr q)).take 100

/-! ### `FilePreview` (main.py:589-679) -/

/-- U+FFFD, the replacement character produced by `errors='replace'`. -/
def replChar : Char :=
  Char.ofNat 0xFFFD

/-- Is `b` a UTF-8 continuation byte? -/
def isCont (b : Nat) : Bool :=
  decide (0x80 ≤ b) && decide (b < 0xC0)

/-- Processing of one UTF-8 lead byte: the characters emitted at once, and
the new decoder state `(acc, need, lower)` — accumulated code-point bits,
number of continuation bytes still expected, and the smallest code point the
sequence may legally encode (overlong rejection). -/
def utf8Lead (b : Nat) : List Char × Nat × Nat × Nat :=
  if b < 0x80 then ([Char.ofNat b], 0, 0, 0)
  else if b < 0xC2 then ([replChar], 0, 0, 0)
  else if b < 0xE0 then ([], b - 0xC0, 1, 0x80)
  else if b < 0xF0 then ([], b - 0xE0, 2, 0x800)
  else if b < 0xF5 then ([], b - 0xF0, 3, 0x10000)
  else ([replChar], 0, 0, 0)

/-- Streaming UTF-8 decoder state machine with replacement on malformed
input; processes one byte per step. -/
def utf8Go (acc need lower : Nat) : List Nat → List Char
  | [] => if need = 0 then [] else [replChar]
  | b :: bs =>
    if need = 0 then
      (utf8Lead b).1 ++ utf8Go (utf8Lead b).2.1 (utf8Lead b).2.2.1 (utf8Lead b).2.2.2 bs
    else if isCont b then
      if need = 1 then
        (if 0x40 * acc + (b - 0x80) < lower ∨
            (0xD800 ≤ 0x40 * acc + (b - 0x80) ∧ 0x40 * acc + (b - 0x80) < 0xE000) then
          [replChar]
        else [Char.ofNat (0x40 * acc + (b - 0x80))]) ++ utf8Go 0 0 0 bs
      else utf8Go (0x40 * acc + (b - 0x80)) (need - 1) lower bs
    else
      replChar ::
        ((utf8Lead b).1 ++ utf8Go (utf8Lead b).2.1 (utf8Lead b).2.2.1 (utf8Lead b).2.2.2 bs)

/-- UTF-8 decoding with `errors='replace'` (the `open(path, 'r',
encoding='utf-8', errors='replace')` of main.py:627): a total function —
malformed input yields U+FFFD instead of an exception. -/
def utf8DecodeReplace (bytes : List Nat) : List Char :=
  utf8Go 0 0 0 bytes

/-- Universal-newline translation done by Python's text mode:
`\r\n` and bare `\r` both become `\n`. -/
def translateNewlines : List Char → List Char
  | [] => []
  | '\r' :: '\n' :: cs => '\n' :: translateNewlines cs
  | '\r' :: cs => '\n' :: translateNewlines cs
  | c :: cs => c :: translateNewlines cs

/-- Helper for `splitLines`: accumulates the current line (reversed). -/
def splitLinesAux (acc : List Char) : List Char → List String
  | [] => if acc.isEmpty then [] else [String.mk acc.reverse]
  | c :: cs =>
    if c = '\n' then String.mk (acc.reverse ++ ['\n']) :: splitLinesAux [] cs
    else splitLinesAux (c :: acc) cs

/-- Line iteration of a Python text file (`for line in f`): split after each
`'\n'`, keeping it; a final unterminated line is kept too. -/
def splitLines (cs : List Char) : List String :=
  splitLinesAux [] cs

/-- `line.rstrip('\n')` of main.py:634. -/
def rstripNL (s : String) : String :=
  String.mk ((s.data.reverse.dropWhile (fun c => c = '\n')).reverse)

/-- The truncation marker of main.py:632. -/
def truncMarker : String :=
  "\n[dim]... (preview truncated)[/dim]"

/-- The line-reading loop of main.py:629-634 with its `enumerate` index:
at index 1000 it appends the truncation marker and stops; earlier lines are
kept with their trailing newline stripped. -/
def previewLoop : Nat → List String → List String
  | _, [] => []
  | i, l :: ls =>
    if 1000 ≤ i then [truncMarker]
    else rstripNL l :: previewLoop (i + 1) ls

/-- What the file branch of `preview_file` observes: `st_size` from the
`stat` call (main.py:619) and the raw bytes of the file.  The two are
independent inputs because the code never checks them against each other
(and because the size gate must not depend on the content). -/
structure FileView where
  size : Nat
  bytes : List Nat
deriving DecidableEq

/-- `f"{x:.1f}"` applied to the exact rational `n / d` (`d > 0`): one decimal
digit, rounding half to even exactly as CPython formats the (exactly
representable) float values that `_format_size` produces for sizes below
2^53. -/
def fmt1 (n d : Nat) : String :=
  let t := 10 * n
  let q := t / d
  let r := t % d
  let m := if 2 * r < d then q else if d < 2 * r then q + 1 else if q % 2 = 0 then q else q + 1
  toString (m / 10) ++ "." ++ toString (m % 10)

/-- The unit loop of `FilePreview._format_size` (main.py:673-679), tracking
the running value exactly as the fraction `size / d`. -/
def formatSizeGo : List String → Nat → Nat → String
  | [], n, d => fmt1 n d ++ " TB"
  | u :: us, n, d => if n < 1024 * d then fmt1 n d ++ " " ++ u else formatSizeGo us n (1024 * d)

/-- `FilePreview._format_size` (main.py:673-679). -/
def formatSize (size : Nat) : String :=
  formatSizeGo ["B", "KB", "MB", "GB"] size 1

/-- The preview contents `FilePreview.preview_file` can display, one
constructor per `self.update(...)` site (main.py:600-671). -/
inductive PreviewOut
  | notFound
  | directoryInfo (dirs files : Nat)
  | dirPermissionDenied
  | tooLarge (formattedSize : String)
  | emptyFile
  | structuredDoc (content : String)
  | highlighted (content lang : String)
  | plainText (content : String)
  | binary (formattedSize : String)
  | permissionDenied
  | errorMsg (e : FsErr)
deriving DecidableEq

/-- Is this the `"Binary file"` diagnostic of main.py:667? -/
def PreviewOut.isBinary : PreviewOut → Bool
  | .binary _ => true
  | _ => false

/-- The `try` body of the file branch of `preview_file` (main.py:617-665):
size gate at 1,000,000 bytes, lossy decode, 1000-line cap, empty-content
check, then rendering selected on the (already lower-cased, dot-stripped)
extension. -/
def previewFileBody (suffix : String) (fv : FileView) : PreviewOut :=
  if 1000000 < fv.size then .tooLarge (formatSize fv.size)
  else
    let ls := previewLoop 0 (splitLines (translateNewlines (utf8DecodeReplace fv.bytes)))
    let content := String.intercalate "\n" ls
    if content = "" then .emptyFile
    else if suffix = "md" ∨ suffix = "markdown" then .structuredDoc content
    else if suffix ≠ "" then .highlighted content suffix
    else .plainText content

/-- What `preview_file` observes about its argument path: missing, a
directory (with the outcome of `iterdir`), or a file (with the outcome of
`stat`/`open`/read). -/
inductive PathInfo
  | missing
  | directory (listing : Except FsErr (List Entry))
  | file (statOpen : Except FsErr FileView) (suffix : String)

/-- `FilePreview.preview_file` (main.py:600-671) with its exception
structure.  The directory branch catches only `PermissionError`
(main.py:613), so other errors propagate; the file branch ends in
`except Exception` (main.py:670), so every raised error becomes a
diagnostic.  `except UnicodeDecodeError` (main.py:666) has no corresponding
error value: `errors='replace'` decoding is total, so that exception cannot
arise from the `try` body. -/
def previewFile : PathInfo → Except FsErr PreviewOut
  | .missing => .ok .notFound
  | .directory (.ok es) =>
      .ok (.directoryInfo (es.countP (fun e => e.isDir)) (es.length - es.countP (fun e => e.isDir)))
  | .directory (.error .permission) => .ok .dirPermissionDenied
  | .directory (.error .notFound) => .error .notFound
  | .directory (.error .ioError) => .error .ioError
  | .file (.ok fv) suffix => .ok (previewFileBody suffix fv)
  | .file (.error .permission) _ => .ok .permissionDenied
  | .file (.error .notFound) _ => .ok (.errorMsg .notFound)
  | .file (.error .ioError) _ => .ok (.errorMsg .ioError)

/-- A fresh `FileList` state (main.py:474-477): hidden files off, nothing
listed yet. -/
def initState : ListState :=
  { showHidden := false, entries := [], selectedIndex := 0 }

/-! ### Helper lemmas about the preview line loop -/

theorem previewLoop_of_le (ls : List String) :
    ∀ i, i + ls.length ≤ 1000 → previewLoop i ls = ls.map rstripNL := by
  induction ls with
  | nil => intro i _; rfl
  | cons l ls ih =>
    intro i h
    rw [List.length_cons] at h
    have hi : ¬ 1000 ≤ i := by omega
    rw [List.map_cons]
    simp only [previewLoop, if_neg hi]
    rw [ih (i + 1) (by omega)]

theorem previewLoop_of_gt (ls : List String) :
    ∀ i, i ≤ 1000 → 1000 < i + ls.length →
      previewLoop i ls = (ls.take (1000 - i)).map rstripNL ++ [truncMarker] := by
  induction ls with
  | nil => intro i h1 h2; rw [List.length_nil] at h2; omega
  | cons l ls ih =>
    intro i h1 h2
    rw [List.length_cons] at h2
    by_cases hi : 1000 ≤ i
    · have hie : i = 1000 := le_antisymm h1 hi
      subst hie
      simp [previewLoop]
    · have hsub : 1000 - i = (1000 - (i + 1)) + 1 := by omega
      simp only [previewLoop, if_neg hi]
      rw [ih (i + 1) (by omega) (by omega), hsub, List.take_succ_cons, List.map_cons]
      rfl

/-! ### The claims -/

/-- Claim C1 (amended): `PermissionError` during listing or searching, and
every exception raised in the file branch of previewing, are caught and
converted into user-visible diagnostic values; but filesystem errors of any
other kind raised during listing, searching, or directory previewing are
not caught and propagate out of the operation. -/
theorem error_conversion_policy :
    (∀ (hasParent : Bool) (st : ListState),
      refreshListExc (Except.error FsErr.permission) hasParent st =
        Except.ok RefreshOut.permissionDenied) ∧
    (∀ (hasParent : Bool) (st : ListState),
      refreshListExc (Except.error FsErr.notFound) hasParent st =
        Except.error FsErr.notFound) ∧
    (∀ (hasParent : Bool) (st : ListState),
      refreshListExc (Except.error FsErr.ioError) hasParent st =
        Except.error FsErr.ioError) ∧
    (∀ root : List String,
      collectFilesExc root (Except.error FsErr.permission) = Except.ok []) ∧
    (∀ root : List String,
      collectFilesExc root (Except.error FsErr.notFound) = Except.error FsErr.notFound) ∧
    (∀ root : List String,
      collectFilesExc root (Except.error FsErr.ioError) = Except.error FsErr.ioError) ∧
    (∀ (statOpen : Except FsErr FileView) (suffix : String),
      ∃ out, previewFile (PathInfo.file statOpen suffix) = Except.ok out) ∧
    previewFile (PathInfo.directory (Except.error FsErr.notFound)) =
      Except.error FsErr.notFound := by
  refine ⟨fun _ _ => rfl, fun _ _ => rfl, fun _ _ => rfl, fun _ => rfl, fun _ => rfl,
    fun _ => rfl, ?_, rfl⟩
  intro statOpen suffix
  match statOpen with
  | .ok fv => exact ⟨_, rfl⟩
  | .error .permission => exact ⟨_, rfl⟩
  | .error .notFound => exact ⟨_, rfl⟩
  | .error .ioError => exact ⟨_, rfl⟩

/-- Claim C1, counterexample: a `FileNotFoundError` raised by `iterdir`
during `refresh_list` is not caught (only `PermissionError` is,
main.py:504), so it propagates as a fault instead of becoming a
diagnostic value. -/
theorem refresh_error_aborts_cx :
    refreshListExc (Except.error FsErr.notFound) true initState =
      Except.error FsErr.notFound :=
  rfl

/-- Claim C2 (amended): the truncation marker is appended only when a
1001st line exists: for every line sequence with more than 1000 lines, the
preview loop keeps exactly the first 1000 lines (newline-stripped) followed
by the truncation marker, and nothing beyond line 1000 appears in the
output. -/
theorem preview_truncation_amended (ls : List String) (h : 1000 < ls.length) :
    previewLoop 0 ls = (ls.take 1000).map rstripNL ++ [truncMarker] := by
  simpa using previewLoop_of_gt ls 0 (by omega) (by omega)

theorem preview_truncation_amended_witness :
    1000 < (List.replicate 1001 "x").length ∧
    previewLoop 0 (List.replicate 1001 "x") =
      ((List.replicate 1001 "x").take 1000).map rstripNL ++ [truncMarker] :=
  ⟨by simp only [List.length_replicate]; omega,
   preview_truncation_amended _ (by simp only [List.length_replicate]; omega)⟩

/-- Claim C2, counterexample: a file with exactly 1000 lines gets no
truncation marker — the loop of main.py:630-633 appends the marker only
upon encountering an index `i >= 1000`, i.e. a 1001st line. -/
theorem preview_exact_1000_no_marker_cx :
    (List.replicate 1000 "x").length = 1000 ∧
    truncMarker ∉ previewLoop 0 (List.replicate 1000 "x") := by
  constructor
  · rw [List.length_replicate]
  · rw [previewLoop_of_le _ 0 (by rw [List.length_replicate])]
    simp only [List.map_replicate, List.mem_replicate]
    rintro ⟨-, h⟩
    exact absurd h (by decide)

/-- Claim C3 (amended): decoding is lossy and total — undecodable bytes
become U+FFFD and no exception is raised — and consequently the
`Diagnostic("binary")` output is unreachable: no file, whatever its bytes,
ever produces it, because the `except UnicodeDecodeError` handler of
main.py:666 can never fire under `errors='replace'`. -/
theorem binary_diagnostic_unreachable :
    utf8DecodeReplace [0xC3, 0x28] = [replChar, '('] ∧
    ∀ (suffix : String) (fv : FileView), (previewFileBody suffix fv).isBinary = false := by
  refine ⟨rfl, ?_⟩
  intro suffix fv
  unfold previewFileBody
  split
  · rfl
  · dsimp only
    split
    · rfl
    · split
      · rfl
      · split <;> rfl

/-- Claim C3, counterexample: the canonical non-text file (a lone `0xFF`
byte, which no UTF-8 decoder accepts) is still previewed as replaced text,
not as the `"binary"` diagnostic. -/
theorem binary_file_no_binary_diagnostic_cx :
    previewFileBody "" { size := 1, bytes := [255] } =
      PreviewOut.plainText (String.mk [replChar]) ∧
    (previewFileBody "" { size := 1, bytes := [255] }).isBinary = false :=
  ⟨rfl, rfl⟩

/-- Claim C7: a file whose `st_size` exceeds 1,000,000 bytes always
previews as the too-large diagnostic carrying the formatted size, and the
result does not depend on the file's content (the bytes are never read). -/
theorem preview_too_large_spec (suffix : String) (size : Nat) (bytes bytes' : List Nat)
    (h : 1000000 < size) :
    previewFileBody suffix { size := size, bytes := bytes } =
      PreviewOut.tooLarge (formatSize size) ∧
    previewFileBody suffix { size := size, bytes := bytes } =
      previewFileBody suffix { size := size, bytes := bytes' } := by
  constructor <;> simp [previewFileBody, h]

theorem preview_too_large_spec_witness :
    1000000 < 1000001 ∧
    previewFileBody "py" { size := 1000001, bytes := [7] } =
      PreviewOut.tooLarge (formatSize 1000001) :=
  ⟨by decide, (preview_too_large_spec "py" 1000001 [7] [] (by decide)).1⟩

/-- Claim C8: with the filesystem unchanged, toggling hidden files twice
restores the original entry sequence, provided the listing was in sync with
the filesystem to begin with (its entries were those of a refresh). -/
theorem toggle_hidden_involutive (hasParent : Bool) (raw : List Entry) (st : ListState)
    (h : st.entries = (refreshList hasParent raw st).entries) :
    (toggleHiddenFiles hasParent raw (toggleHiddenFiles hasParent raw st)).entries =
      st.entries := by
  simp only [toggleHiddenFiles, refreshList] at h ⊢
  rw [Bool.not_not]
  exact h.symm

theorem toggle_hidden_involutive_witness :
    ({ showHidden := false,
        entries := refreshEntries true false [⟨".h", false⟩, ⟨"a", false⟩],
        selectedIndex := 0 } : ListState).entries =
      (refreshList true [⟨".h", false⟩, ⟨"a", false⟩]
        { showHidden := false,
          entries := refreshEntries true false [⟨".h", false⟩, ⟨"a", false⟩],
          selectedIndex := 0 }).entries ∧
    (toggleHiddenFiles true [⟨".h", false⟩, ⟨"a", false⟩]
        (toggleHiddenFiles true [⟨".h", false⟩, ⟨"a", false⟩]
          { showHidden := false,
            entries := refreshEntries true false [⟨".h", false⟩, ⟨"a", false⟩],
            selectedIndex := 0 })).entries =
      ({ showHidden := false,
          entries := refreshEntries true false [⟨".h", false⟩, ⟨"a", false⟩],
          selectedIndex := 0 } : ListState).entries :=
  ⟨rfl, toggle_hidden_involutive true [⟨".h", false⟩, ⟨"a", false⟩] _ rfl⟩

/-- Claim C9: `_format_size` uses binary (1024) scaling with one decimal
place, picking the largest unit of B/KB/MB/GB where the scaled magnitude is
below 1024 and falling back to TB as the ceiling; in particular 0 bytes
formats as `"0.0 B"`, 1024 as `"1.0 KB"` and 1,048,576 as `"1.0 MB"`. -/
theorem format_size_spec :
    formatSize 0 = "0.0 B" ∧ formatSize 1024 = "1.0 KB" ∧ formatSize 1048576 = "1.0 MB" ∧
    (∀ n : Nat, n < 1024 → formatSize n = fmt1 n 1 ++ " B") ∧
    (∀ n : Nat, 1024 ≤ n → n < 1048576 → formatSize n = fmt1 n 1024 ++ " KB") ∧
    (∀ n : Nat, 1048576 ≤ n → n < 1073741824 → formatSize n = fmt1 n 1048576 ++ " MB") ∧
    (∀ n : Nat, 1073741824 ≤ n → n < 1099511627776 →
      formatSize n = fmt1 n 1073741824 ++ " GB") ∧
    (∀ n : Nat, 1099511627776 ≤ n → formatSize n = fmt1 n 1099511627776 ++ " TB") := by
  refine ⟨rfl, rfl, rfl, ?_, ?_, ?_, ?_, ?_⟩
  · intro n h
    simp only [formatSize, formatSizeGo]
    rw [if_pos (by omega : n < 1024 * 1)]
    rw [String.append_assoc]; exact rfl
  · intro n h1 h2
    simp only [formatSize, formatSizeGo]
    rw [if_neg (by omega : ¬ n < 1024 * 1), if_pos (by omega : n < 1024 * (1024 * 1))]
    rw [show (1024 * 1 : Nat) = 1024 by norm_num, String.append_assoc]; exact rfl
  · intro n h1 h2
    simp only [formatSize, formatSizeGo]
    rw [if_neg (by omega : ¬ n < 1024 * 1), if_neg (by omega : ¬ n < 1024 * (1024 * 1)),
      if_pos (by omega : n < 1024 * (1024 * (1024 * 1)))]
    rw [show (1024 * (1024 * 1) : Nat) = 1048576 by norm_num, String.append_assoc]
    exact rfl
  · intro n h1 h2
    simp only [formatSize, formatSizeGo]
    rw [if_neg (by omega : ¬ n < 1024 * 1), if_neg (by omega : ¬ n < 1024 * (1024 * 1)),
      if_neg (by omega : ¬ n < 1024 * (1024 * (1024 * 1))),
      if_pos (by omega : n < 1024 * (1024 * (1024 * (1024 * 1))))]
    rw [show (1024 * (1024 * (1024 * 1)) : Nat) = 1073741824 by norm_num,
      String.append_assoc]
    exact rfl
  · intro n h1
    simp only [formatSize, formatSizeGo]
    rw [if_neg (by omega : ¬ n < 1024 * 1), if_neg (by omega : ¬ n < 1024 * (1024 * 1)),
      if_neg (by omega : ¬ n < 1024 * (1024 * (1024 * 1))),
      if_neg (by omega : ¬ n < 1024 * (1024 * (1024 * (1024 * 1))))]

theorem format_size_spec_witness :
    1024 ≤ 2048 ∧ 2048 < 1048576 ∧ formatSize 2048 = fmt1 2048 1024 ++ " KB" :=
  ⟨by omega, by omega, format_size_spec.2.2.2.2.1 2048 (by omega) (by omega)⟩

/-- Claim C4: after a successful refresh the listing's selection index is
reset to 0; the first entry is the parent pseudo-entry exactly when the
directory has a parent; and the remaining entries are a permutation of the
(hidden-filtered) children, ordered directories-before-files with each
partition in case-insensitive name order. -/
theorem refresh_list_spec (hasParent : Bool) (raw : List Entry) (st : ListState) :
    (refreshList hasParent raw st).selectedIndex = 0 ∧
    (hasParent = true → (refreshList hasParent raw st).entries.head? = some Row.parent) ∧
    (hasParent = false → Row.parent ∉ (refreshList hasParent raw st).entries) ∧
    ∃ children : List Entry,
      (refreshList hasParent raw st).entries =
        (if hasParent then [Row.parent] else []) ++ children.map Row.child ∧
      children.Perm (visibleEntries st.showHidden raw) ∧
      children.Pairwise (fun a b =>
        (a.isDir = false → b.isDir = false) ∧
        (a.isDir = b.isDir → strLeB (lowerStr a.name) (lowerStr b.name) = true)) := by
  refine ⟨rfl, ?_, ?_, ?_⟩
  · intro h; subst h; rfl
  · intro h; subst h
    simp only [refreshList, refreshEntries, Bool.false_eq_true, if_false, List.nil_append]
    simp [List.mem_map]
  · refine ⟨(visibleEntries st.showHidden raw).insertionSort entryLe, rfl,
      List.perm_insertionSort _ _, ?_⟩
    have hs : ((visibleEntries st.showHidden raw).insertionSort entryLe).Pairwise entryLe :=
      List.sorted_insertionSort entryLe (visibleEntries st.showHidden raw)
    refine List.Pairwise.imp ?_ hs
    intro a b hab
    unfold entryLe entryLeB at hab
    by_cases h : a.isDir = b.isDir
    · rw [if_pos h] at hab
      exact ⟨fun hf => h ▸ hf, fun _ => hab⟩
    · rw [if_neg h] at hab
      refine ⟨fun hf => absurd hab (by rw [hf]; exact Bool.false_ne_true), fun he => absurd he h⟩

theorem refresh_list_spec_witness :
    (refreshList true [⟨"b.txt", false⟩, ⟨"A", true⟩] initState).selectedIndex = 0 ∧
    (refreshList true [⟨"b.txt", false⟩, ⟨"A", true⟩] initState).entries.head? =
      some Row.parent ∧
    Row.parent ∉ (refreshList false [⟨"b.txt", false⟩, ⟨"A", true⟩] initState).entries :=
  ⟨(refresh_list_spec true [⟨"b.txt", false⟩, ⟨"A", true⟩] initState).1,
   (refresh_list_spec true [⟨"b.txt", false⟩, ⟨"A", true⟩] initState).2.1 rfl,
   (refresh_list_spec false [⟨"b.txt", false⟩, ⟨"A", true⟩] initState).2.2.1 rfl⟩

/-- Claim C6: the index build excludes every path that has any hidden
segment anywhere in it — in particular every path in a subtree rooted at a
hidden directory, since each such path contains the hidden directory as a
segment. -/
theorem collect_files_hidden_excluded (root : List String) (rels : List (List String))
    (rel : List String) (_hmem : rel ∈ rels) (hhid : hasHiddenPart rel = true) :
    root ++ rel ∉ collectFiles root rels := by
  intro hin
  rw [collectFiles, List.mem_insertionSort] at hin
  have hkeep := List.of_mem_filter hin
  have hall : hasHiddenPart (root ++ rel) = true := by
    unfold hasHiddenPart at hhid ⊢
    rw [List.any_append, hhid, Bool.or_true]
  rw [hall] at hkeep
  exact absurd hkeep (by decide)

theorem collect_files_hidden_excluded_witness :
    [".git", "f"] ∈ [[".git", "f"]] ∧ hasHiddenPart [".git", "f"] = true ∧
    ["r"] ++ [".git", "f"] ∉ collectFiles ["r"] [[".git", "f"]] :=
  ⟨by decide, by decide,
   collect_files_hidden_excluded ["r"] [[".git", "f"]] [".git", "f"] (by decide) (by decide)⟩

/-- Claim C10: when the search root's own absolute path contains a hidden
component, the filter of main.py:373 (which inspects every component of the
full path, the root's included) rejects every candidate, so the index is
empty and every query — empty or not — returns no results. -/
theorem hidden_root_empty_index (root : List String) (rels : List (List String))
    (hroot : hasHiddenPart root = true) :
    collectFiles root rels = [] ∧
    ∀ (score : String → String → Nat) (toStr : List String → String) (q : String),
      updateResults score toStr (collectFiles root rels) q = [] := by
  have hempty : collectFiles root rels = [] := by
    unfold collectFiles
    have hfil : (rels.map (fun rel => root ++ rel)).filter (fun p => !hasHiddenPart p) = [] := by
      rw [List.filter_eq_nil_iff]
      intro p hp
      rw [List.mem_map] at hp
      obtain ⟨rel, -, rfl⟩ := hp
      have : hasHiddenPart (root ++ rel) = true := by
        unfold hasHiddenPart at hroot ⊢
        rw [List.any_append, hroot, Bool.true_or]
      rw [this]
      decide
    rw [hfil]
    rfl
  refine ⟨hempty, ?_⟩
  intro score toStr q
  rw [hempty]
  unfold updateResults
  split
  · rfl
  · rfl

theorem hidden_root_empty_index_witness :
    hasHiddenPart [".cfg"] = true ∧ collectFiles [".cfg"] [["a"]] = [] ∧
    updateResults (fun _ s => s.length) (fun _ => "") (collectFiles [".cfg"] [["a"]]) "q" = [] :=
  ⟨by decide, (hidden_root_empty_index [".cfg"] [["a"]] (by decide)).1,
   (hidden_root_empty_index [".cfg"] [["a"]] (by decide)).2 _ _ "q"⟩

/-- If a pair is a sublist of a duplicate-free list and the second component
survives `take n`, the pair survives `take n` as well. -/
theorem pair_sublist_take {α : Type _} {a b : α} :
    ∀ {l : List α} {n : Nat}, l.Nodup → [a, b].Sublist l → b ∈ l.take n →
      [a, b].Sublist (l.take n) := by
  intro l
  induction l with
  | nil => intro n _ hsub _; exact absurd (List.sublist_nil.mp hsub) (by simp)
  | cons c l ih =>
    intro n hnd hsub hmem
    cases n with
    | zero => simp at hmem
    | succ m =>
      rw [List.take_succ_cons] at hmem ⊢
      cases hsub with
      | cons _ h =>
        have hb : b ∈ l := h.subset (by simp)
        have hbne : b ≠ c := by
          intro he
          subst he
          exact (List.nodup_cons.mp hnd).1 hb
        have hmem' : b ∈ l.take m := by
          rcases List.mem_cons.mp hmem with he | hm
          · exact absurd he hbne
          · exact hm
        exact (ih (List.nodup_cons.mp hnd).2 h hmem').cons c
      | cons₂ _ h =>
        have hb : b ∈ l := List.singleton_sublist.mp h
        have hab : a ≠ b := by
          intro he
          subst he
          exact (List.nodup_cons.mp hnd).1 hb
        have hmem' : b ∈ l.take m := by
          rcases List.mem_cons.mp hmem with he | hm
          · exact absurd he.symm hab
          · exact hm
        exact (List.singleton_sublist.mpr hmem').cons₂ a

/-- Claim C5: the candidates of a built index are in baseline
(case-insensitive alphabetical) order; an empty query returns them in that
order capped at 100; a non-empty query returns at most 100 results, sorted
by descending score, consisting of top-scored candidates (everything left
out scores no higher than anything kept), with ties kept stably in baseline
order. -/
theorem update_results_spec {α : Type} (score : String → String → Nat) (toStr : α → String)
    (allFiles : List α) (q : String) :
    (∀ (root : List String) (rels : List (List String)),
      (collectFiles root rels).Pairwise pathLe) ∧
    (q = "" → updateResults score toStr allFiles q = allFiles.take 100) ∧
    (q ≠ "" →
      (updateResults score toStr allFiles q).length ≤ 100 ∧
      (updateResults score toStr allFiles q).Pairwise
        (fun a b => score q (toStr b) ≤ score q (toStr a)) ∧
      (∃ rest, allFiles.Perm (updateResults score toStr allFiles q ++ rest) ∧
        ∀ a ∈ updateResults score toStr allFiles q, ∀ b ∈ rest,
          score q (toStr b) ≤ score q (toStr a)) ∧
      ((allFiles.map toStr).Nodup → ∀ a b : α, [a, b].Sublist allFiles →
        score q (toStr a) = score q (toStr b) →
        b ∈ updateResults score toStr allFiles q →
        [a, b].Sublist (updateResults score toStr allFiles q))) := by
  haveI htot : IsTotal α (extractRel score toStr q) := ⟨fun _ _ => Nat.le_total _ _⟩
  haveI htr : IsTrans α (extractRel score toStr q) := ⟨fun _ _ _ h1 h2 => le_trans h2 h1⟩
  refine ⟨fun root rels => List.sorted_insertionSort pathLe _, fun h => by
    simp [updateResults, h], ?_⟩
  intro hq
  have hres : updateResults score toStr allFiles q =
      (allFiles.insertionSort (extractRel score toStr q)).take 100 := by
    simp [updateResults, hq]
  have hperm : (allFiles.insertionSort (extractRel score toStr q)).Perm allFiles :=
    List.perm_insertionSort _ _
  have hsorted : (allFiles.insertionSort (extractRel score toStr q)).Pairwise
      (extractRel score toStr q) :=
    List.sorted_insertionSort _ _
  refine ⟨?_, ?_, ?_, ?_⟩
  · rw [hres]
    exact List.length_take_le _ _
  · rw [hres]
    exact hsorted.sublist (List.take_sublist _ _)
  · refine ⟨(allFiles.insertionSort (extractRel score toStr q)).drop 100, ?_, ?_⟩
    · rw [hres, List.take_append_drop]
      exact hperm.symm
    · intro a ha b hb
      have hsorted2 : ((allFiles.insertionSort (extractRel score toStr q)).take 100 ++
          (allFiles.insertionSort (extractRel score toStr q)).drop 100).Pairwise
            (extractRel score toStr q) := by
        rw [List.take_append_drop]
        exact hsorted
      exact (List.pairwise_append.mp hsorted2).2.2 a (by rw [hres] at ha; exact ha) b hb
  · intro hnd a b hsub heq hb
    have hndAll : allFiles.Nodup := List.Nodup.of_map toStr hnd
    have hndS : (allFiles.insertionSort (extractRel score toStr q)).Nodup :=
      (List.Perm.nodup_iff hperm).mpr hndAll
    have hpair : [a, b].Sublist (allFiles.insertionSort (extractRel score toStr q)) :=
      List.pair_sublist_insertionSort (le_of_eq heq.symm) hsub
    rw [hres] at hb ⊢
    exact pair_sublist_take hndS hpair hb

theorem update_results_spec_witness :
    ("z" : String) ≠ "" ∧
    (updateResults (fun _ s => s.length) id ["bb", "c"] "z").length ≤ 100 ∧
    updateResults (fun _ s => s.length) id ["bb", "c"] "" = ["bb", "c"] ∧
    (["bb", "cc"].map id).Nodup ∧
    ["bb", "cc"].Sublist (updateResults (fun _ s => s.length) id ["bb", "cc"] "z") :=
  ⟨by decide,
   ((update_results_spec (fun _ s => s.length) id ["bb", "c"] "z").2.2 (by decide)).1,
   (update_results_spec (fun _ s => s.length) id ["bb", "c"] "").2.1 rfl,
   by decide,
   ((update_results_spec (fun _ s => s.length) id ["bb", "cc"] "z").2.2
      (by decide)).2.2.2 (by decide) "bb" "cc" (by decide) rfl (by decide)⟩

end FileBrowser
